import Mathlib

/-!
Verification of the codebase-assistant repository against its specification.

Python strings are modelled as lists of Unicode code points (`List Char`);
byte strings as `List Nat` with every element below 256; 32-bit machine
integers as `Nat` reduced modulo `2 ^ 32`; floating-point embedding values
as rationals (`ℚ`).  Fallible operations return `Except`/`Option`, and the
filesystem / ChromaDB side effects are modelled by explicit state passing
with Boolean oracles deciding whether each external call succeeds.
-/

/-! ### MD5 (`hashlib.md5`), modelled on byte lists with `Nat` arithmetic -/

/-- Reduce modulo `2 ^ 32`: the implicit wrap-around of 32-bit MD5 arithmetic. -/
def w32 (n : Nat) : Nat := n % 4294967296

/-- Bitwise complement on 32-bit values. -/
def not32 (x : Nat) : Nat := x ^^^ 4294967295

/-- Left rotation of a 32-bit value by `s` places. -/
def rotl32 (x s : Nat) : Nat := ((x <<< s) % 4294967296) ||| ((x % 4294967296) >>> (32 - s))

/-- MD5 round function F. -/
def mdF (b c d : Nat) : Nat := (b &&& c) ||| (not32 b &&& d)

/-- MD5 round function G. -/
def mdG (b c d : Nat) : Nat := (d &&& b) ||| (not32 d &&& c)

/-- MD5 round function H. -/
def mdH (b c d : Nat) : Nat := b ^^^ c ^^^ d

/-- MD5 round function I. -/
def mdI (b c d : Nat) : Nat := c ^^^ (b ||| not32 d)

/-- The 64 MD5 sine-derived constants `K[i] = floor(abs(sin(i+1)) * 2^32)`. -/
def md5K : List Nat :=
  [0xd76aa478, 0xe8c7b756, 0x242070db, 0xc1bdceee, 0xf57c0faf, 0x4787c62a, 0xa8304613, 0xfd469501,
   0x698098d8, 0x8b44f7af, 0xffff5bb1, 0x895cd7be, 0x6b901122, 0xfd987193, 0xa679438e, 0x49b40821,
   0xf61e2562, 0xc040b340, 0x265e5a51, 0xe9b6c7aa, 0xd62f105d, 0x02441453, 0xd8a1e681, 0xe7d3fbc8,
   0x21e1cde6, 0xc33707d6, 0xf4d50d87, 0x455a14ed, 0xa9e3e905, 0xfcefa3f8, 0x676f02d9, 0x8d2a4c8a,
   0xfffa3942, 0x8771f681, 0x6d9d6122, 0xfde5380c, 0xa4beea44, 0x4bdecfa9, 0xf6bb4b60, 0xbebfbc70,
   0x289b7ec6, 0xeaa127fa, 0xd4ef3085, 0x04881d05, 0xd9d4d039, 0xe6db99e5, 0x1fa27cf8, 0xc4ac5665,
   0xf4292244, 0x432aff97, 0xab9423a7, 0xfc93a039, 0x655b59c3, 0x8f0ccc92, 0xffeff47d, 0x85845dd1,
   0x6fa87e4f, 0xfe2ce6e0, 0xa3014314, 0x4e0811a1, 0xf7537e82, 0xbd3af235, 0x2ad7d2bb, 0xeb86d391]

/-- The 64 MD5 per-round left-rotation amounts. -/
def md5S : List Nat :=
  [7, 12, 17, 22, 7, 12, 17, 22, 7, 12, 17, 22, 7, 12, 17, 22,
   5, 9, 14, 20, 5, 9, 14, 20, 5, 9, 14, 20, 5, 9, 14, 20,
   4, 11, 16, 23, 4, 11, 16, 23, 4, 11, 16, 23, 4, 11, 16, 23,
   6, 10, 15, 21, 6, 10, 15, 21, 6, 10, 15, 21, 6, 10, 15, 21]

/-- One MD5 round: update state `(a, b, c, d)` using round index `i` and
message words `M`. -/
def md5Round (M : List Nat) (st : Nat × Nat × Nat × Nat) (i : Nat) : Nat × Nat × Nat × Nat :=
  let a := st.1; let b := st.2.1; let c := st.2.2.1; let d := st.2.2.2
  let fg : Nat × Nat :=
    if i < 16 then (mdF b c d, i)
    else if i < 32 then (mdG b c d, (5 * i + 1) % 16)
    else if i < 48 then (mdH b c d, (3 * i + 5) % 16)
    else (mdI b c d, (7 * i) % 16)
  let sum := w32 (a + fg.1 + md5K.getD i 0 + M.getD fg.2 0)
  (d, w32 (b + rotl32 sum (md5S.getD i 0)), b, c)

/-- Process one 64-byte block (given as 16 little-endian 32-bit words). -/
def md5Block (st : Nat × Nat × Nat × Nat) (M : List Nat) : Nat × Nat × Nat × Nat :=
  let r := (List.range 64).foldl (md5Round M) st
  (w32 (st.1 + r.1), w32 (st.2.1 + r.2.1), w32 (st.2.2.1 + r.2.2.1), w32 (st.2.2.2 + r.2.2.2))

/-- Little-endian byte decomposition of a 64-bit length value. -/
def le8 (n : Nat) : List Nat :=
  [n % 256, n / 2 ^ 8 % 256, n / 2 ^ 16 % 256, n / 2 ^ 24 % 256,
   n / 2 ^ 32 % 256, n / 2 ^ 40 % 256, n / 2 ^ 48 % 256, n / 2 ^ 56 % 256]

/-- Little-endian byte decomposition of a 32-bit word. -/
def wordLE4 (w : Nat) : List Nat := [w % 256, w / 256 % 256, w / 2 ^ 16 % 256, w / 2 ^ 24 % 256]

/-- MD5 padding: append `0x80`, zeros up to 56 mod 64, then the 64-bit
little-endian bit length. -/
def md5Pad (msg : List Nat) : List Nat :=
  msg ++ [128] ++ List.replicate ((120 - (msg.length + 1) % 64) % 64) 0
      ++ le8 (8 * msg.length % 2 ^ 64)

/-- Split a byte list into 64-byte blocks. -/
def toBlocks (l : List Nat) : List (List Nat) :=
  if l = [] then []
  else l.take 64 :: toBlocks (l.drop 64)
termination_by l.length
decreasing_by
  rename_i h
  have : l.length ≠ 0 := by simpa [List.length_eq_zero] using h
  simp [List.length_drop]; omega

/-- Decode a 64-byte block into 16 little-endian 32-bit words. -/
def blockWords (blk : List Nat) : List Nat :=
  (List.range 16).map fun j =>
    blk.getD (4 * j) 0 + 256 * blk.getD (4 * j + 1) 0
      + 65536 * blk.getD (4 * j + 2) 0 + 16777216 * blk.getD (4 * j + 3) 0

/-- MD5 digest of a byte list: 16 bytes. -/
def md5 (msg : List Nat) : List Nat :=
  let blocks := toBlocks (md5Pad msg)
  let st := blocks.foldl (fun st blk => md5Block st (blockWords blk))
    (0x67452301, 0xefcdab89, 0x98badcfe, 0x10325476)
  wordLE4 st.1 ++ wordLE4 st.2.1 ++ wordLE4 st.2.2.1 ++ wordLE4 st.2.2.2

/-- Lowercase hexadecimal digit characters, as used by `hexdigest()`. -/
def hexChars : List Char := "0123456789abcdef".toList

/-- The hexadecimal digit character for a nibble. -/
def hexDigit (n : Nat) : Char := hexChars.getD n '0'

/-- Model of `hashlib.md5(msg).hexdigest()`: 32 lowercase hex characters. -/
def md5hex (msg : List Nat) : List Char :=
  (md5 msg).flatMap fun b => [hexDigit (b / 16), hexDigit (b % 16)]

/-- UTF-8 encoding of a Python string (`text.encode()`), as a byte list. -/
def utf8Bytes (text : List Char) : List Nat :=
  text.flatMap fun c => (String.utf8EncodeChar c).map fun b => b.toNat

/-- Numeric value of one hexadecimal character, as `int(·, 16)` assigns it;
characters that `int` would reject (never produced by `hexdigest`) map to 0. -/
def hexCharVal (c : Char) : Nat :=
  let v := c.toNat
  if 48 ≤ v ∧ v ≤ 57 then v - 48
  else if 97 ≤ v ∧ v ≤ 102 then v - 87
  else if 65 ≤ v ∧ v ≤ 70 then v - 55
  else 0

/-- Python `int(s, 16)` on a string of hexadecimal characters. -/
def pyIntHex (l : List Char) : Nat := l.foldl (fun a c => 16 * a + hexCharVal c) 0

/-- The consecutive two-character slices `text_hash[i:i+2]` visited by
`for i in range(0, len(text_hash), 2)`. -/
def hexPairs (h : List Char) : List (List Char) :=
  (List.range' 0 ((h.length + 1) / 2) 2).map fun i => (h.drop i).take 2

/-- Model of `MultiCodebaseEmbeddingStore.get_embedding` (identical to the module-level
`get_embedding` in `embedding_store.py`): hash-based 16-dimensional vector. -/
def get_embedding (text : List Char) : List ℚ :=
  let text_hash := md5hex (utf8Bytes text)
  let embedding := (hexPairs text_hash).map fun p => ((pyIntHex p : ℚ) - 127.5) / 127.5
  if embedding.length < 16 then embedding ++ List.replicate (16 - embedding.length) 0
  else embedding.take 16

/-! ### Python string helpers -/

/-- Whitespace characters removed by `str.strip()` (ASCII fragment; the
strings this program strips are ASCII or UTF-8 source text, where only
these occur at chunk boundaries). -/
def isPySpace (c : Char) : Bool :=
  c = ' ' || c = '\t' || c = '\n' || c = '\x0d' || c = '\x0b' || c = '\x0c'

/-- Python `str.strip()`: remove leading and trailing whitespace. -/
def pyStrip (l : List Char) : List Char :=
  ((l.dropWhile isPySpace).reverse.dropWhile isPySpace).reverse

/-- Little-endian decimal digits of `n`, with explicit fuel so that the
recursion is structural (any `fuel ≥ n` yields the digits of `n`). -/
def natDigitsRev (fuel n : Nat) : List Nat :=
  match fuel with
  | 0 => []
  | fuel + 1 => if n = 0 then [] else n % 10 :: natDigitsRev fuel (n / 10)

/-- Decimal rendering `str(n)` of a non-negative integer. -/
def strOfNat (n : Nat) : List Char :=
  if n = 0 then ['0'] else ((natDigitsRev n n).map Nat.digitChar).reverse

/-- Python `int(s)` on a string of ASCII decimal digits; strings `int` would
reject (it raises `ValueError`) map to `none`.  Signs, inner whitespace and
non-ASCII digits never occur in the directory names this is applied to. -/
def pyIntDec? (l : List Char) : Option Nat :=
  if l.isEmpty then none
  else if l.all Char.isDigit then some (l.foldl (fun a c => 10 * a + (c.toNat - 48)) 0)
  else none

/-! ### chunking.py -/

/-- Constant `CHUNK_SIZE` from config.py: window of 40 lines. -/
def CHUNK_SIZE : Nat := 40

/-- Constant `CHUNK_OVERLAP` from config.py: 10 lines of overlap. -/
def CHUNK_OVERLAP : Nat := 10

/-- Python `text.split("\n")` (it keeps a leading/trailing empty piece and maps
the empty string to `[""]`, exactly as `List.splitOn` does). -/
def splitLines (text : List Char) : List (List Char) := text.splitOn '\n'

/-- Python `"\n".join(ls)`. -/
def joinLines (ls : List (List Char)) : List Char := List.intercalate ['\n'] ls

/-- Number of indices produced by `range(0, stop, step)` for `step > 0`. -/
def pyRangeLen (stop step : Nat) : Nat := (stop + step - 1) / step

/-- The start indices `range(0, numLines, step)` visited by `chunk_code`. -/
def chunkStarts (numLines step : Nat) : List Nat := List.range' 0 (pyRangeLen numLines step) step

/-- Core of `chunk_code`: walk the start indices, join up to `window` lines
per step, and drop windows that are empty after stripping. -/
def chunkEmit (window step : Nat) (lines : List (List Char)) : List (List Char) :=
  (chunkStarts lines.length step).filterMap fun i =>
    let chunk := joinLines ((lines.drop i).take window)
    if pyStrip chunk = [] then none else some chunk

/-- Function `chunk_code` from chunking.py with the shipped configuration
(`CHUNK_SIZE = 40`, `CHUNK_OVERLAP = 10`, step `40 - 10 = 30`). -/
def chunk_code (text : List Char) : List (List Char) :=
  chunkEmit CHUNK_SIZE (CHUNK_SIZE - CHUNK_OVERLAP) (splitLines text)

/-- Error raised by Python during chunking under a degenerate configuration. -/
inductive ChunkErr
  /-- `range(0, n, 0)`: `ValueError: range() arg 3 must not be zero`. -/
  | rangeStepZero
deriving DecidableEq, Repr

/-- Function `chunk_code` generalized over the window/overlap configuration, with
Python's `range` semantics for the step `window - overlap`: a zero step
raises `ValueError`; a negative step makes `range(0, len(lines), step)`
empty (the line list is never empty), so the loop silently emits nothing. -/
def chunkCodeGen (window overlap : Nat) (text : List Char) : Except ChunkErr (List (List Char)) :=
  if window < overlap then .ok []
  else if window = overlap then .error .rangeStepZero
  else .ok (chunkEmit window (window - overlap) (splitLines text))

/-! ### multi_embedding_store.py — MultiCodebaseEmbeddingStore

Each codebase gets its own ChromaDB `PersistentClient` rooted at
`os.path.join(base_db_dir, f"codebase_{id}")` and a collection named
`codebase_{id}` inside it.  We model the persisted data as a function from
the client's directory path to the stored entries, and the
`self.clients` / `self.collections` caches as the list of cached ids.
External calls that can fail (`collection.delete`, `collection.add`) are
governed by Boolean oracles; a failed delete is swallowed with a warning
(state unchanged), a failed add raises. -/

/-- One stored document: id, text, the `codebase_id` stamped into its
metadata, and its embedding vector. -/
structure Entry where
  eid : List Char
  doc : List Char
  meta_codebase_id : Nat
  embedding : List ℚ
deriving DecidableEq, Repr

/-- State of a `MultiCodebaseEmbeddingStore`. -/
structure MultiStore where
  /-- Persisted collection contents, keyed by the client's directory path. -/
  disk : List Char → List Entry
  /-- Codebase ids present in `self.clients` / `self.collections`. -/
  cached : List Nat

/-- Model of `get_collection_name`: `f"codebase_{codebase_id}"`. -/
def getCollectionName (cid : Nat) : List Char := "codebase_".toList ++ strOfNat cid

/-- Model of `get_db_path`: `os.path.join(self.base_db_dir, f"codebase_{codebase_id}")`. -/
def getDbPath (base : List Char) (cid : Nat) : List Char :=
  base ++ "/".toList ++ "codebase_".toList ++ strOfNat cid

/-- Model of `get_client_and_collection`: create and cache the client/collection on
first use (the persisted data at the path is untouched). -/
def ensureClient (cid : Nat) (s : MultiStore) : MultiStore :=
  if cid ∈ s.cached then s else { s with cached := cid :: s.cached }

/-- Errors surfaced by store operations. -/
inductive StoreErr
  /-- the exception re-raised when `collection.add` fails (the spec's
  `StoreWriteError`) -/
  | storeWriteError
  /-- `ValueError(f"Codebase {id} not found in embedding store")` -/
  | valueError
deriving DecidableEq, Repr

/-- The ids `f"doc_{codebase_id}_{i}"` generated by `add_documents`. -/
def docId (cid i : Nat) : List Char :=
  "doc_".toList ++ strOfNat cid ++ "_".toList ++ strOfNat i

/-- The entries `add_documents` inserts: generated ids, the document texts,
embeddings from `get_embedding`, and metadata whose `codebase_id` field is
set to `cid` on both metadata branches. -/
def newEntries (cid : Nat) (documents : List (List Char)) : List Entry :=
  documents.enum.map fun p =>
    { eid := docId cid p.1, doc := p.2, meta_codebase_id := cid,
      embedding := get_embedding p.2 }

/-- Model of `add_documents(codebase_id, documents, metadata, replace_existing)`.
`deleteOk` decides whether the delete phase's ChromaDB calls succeed (a
failure is caught and only warned about); `addOk` decides whether
`collection.add` succeeds (a failure is re-raised).  Returns the new state
and the call's outcome. -/
def addDocuments (base : List Char) (deleteOk addOk : Bool) (cid : Nat)
    (documents : List (List Char)) (replace : Bool) (s : MultiStore) :
    MultiStore × Except StoreErr Unit :=
  if documents = [] then (s, .ok ())
  else
    let s₁ := ensureClient cid s
    let path := getDbPath base cid
    let coll := s₁.disk path
    -- delete phase: `collection.get(where={"codebase_id": cid})` then
    -- `collection.delete(ids=existing_ids)`
    let coll₁ := if replace && deleteOk then coll.filter (fun e => e.meta_codebase_id ≠ cid)
                 else coll
    let s₂ : MultiStore :=
      { s₁ with disk := fun p => if p = path then coll₁ else s₁.disk p }
    if addOk then
      ({ s₂ with disk := fun p => if p = path then coll₁ ++ newEntries cid documents
                                  else s₂.disk p }, .ok ())
    else (s₂, .error .storeWriteError)

/-- Squared L2 distance between two embedding vectors (ChromaDB's default
space for nearest-neighbour ranking). -/
def sqDist (a b : List ℚ) : ℚ := ((a.zip b).map fun p => (p.1 - p.2) ^ 2).sum

/-- Model of `query_codebase`: raises `ValueError` when the codebase is not in the
collection cache, otherwise returns the documents of the `n_results`
nearest stored entries. -/
def queryCodebase (base : List Char) (cid : Nat) (queryText : List Char) (nResults : Nat)
    (s : MultiStore) : Except StoreErr (List (List Char)) :=
  if cid ∈ s.cached then
    let coll := s.disk (getDbPath base cid)
    let qe := get_embedding queryText
    let ranked := (coll.map fun e => (sqDist qe e.embedding, e.doc)).mergeSort
      fun x y => decide (x.1 ≤ y.1)
    .ok ((ranked.take nResults).map fun p => p.2)
  else .error .valueError

/-! ### `_force_remove_directory`, `delete_codebase`, `list_codebases`

`_force_remove_directory` loops `for attempt in range(max_retries)` with
`max_retries = 3`.  Attempts 0 and 1 each make up to two `shutil.rmtree`
calls (a plain one, then — after a chmod walk that swallows its own
errors — one with an `onerror` handler); the final attempt makes one more
`rmtree` call and, if it fails, falls back to renaming the directory to
`f"{path}_backup_{int(time.time())}"`, re-raising only when the rename
itself fails.  `rmOk k` decides whether the `k`-th `rmtree` call succeeds,
`renameOk` whether the fallback `os.rename` succeeds. -/

/-- Result of directory reclamation. -/
inductive RemoveOutcome
  /-- a `shutil.rmtree` call succeeded -/
  | removed
  /-- all deletions failed; directory renamed to the timestamped backup -/
  | renamed (backup : List Char)
  /-- deletion and rename both failed: the rename's `OSError` (which names
  the path) propagates -/
  | raised (path : List Char)
  /-- the retry loop fell through (unreachable while `max_retries = 3`) -/
  | exhausted
deriving DecidableEq, Repr

/-- The backup name `f"{path}_backup_{int(time.time())}"`. -/
def backupName (path : List Char) (ts : Nat) : List Char :=
  path ++ "_backup_".toList ++ strOfNat ts

/-- The retry loop of `_force_remove_directory`.  `calls` counts `rmtree`
invocations made so far, `remaining` the loop iterations left (`remaining
= 1` on the final attempt, where `attempt == max_retries - 1`). -/
def forceRemoveGo (rmOk : Nat → Bool) (renameOk : Bool) (ts : Nat) (path : List Char) :
    Nat → Nat → RemoveOutcome × Nat
  | calls, 0 => (.exhausted, calls)
  | calls, remaining + 1 =>
    if rmOk calls then (.removed, calls + 1)
    else if remaining > 0 then
      -- chmod walk (its per-file errors are swallowed), then
      -- `shutil.rmtree(path, onerror=handle_remove_readonly)`
      if rmOk (calls + 1) then (.removed, calls + 2)
      else forceRemoveGo rmOk renameOk ts path (calls + 2) remaining
    else if renameOk then (.renamed (backupName path ts), calls + 1)
    else (.raised path, calls + 1)

/-- Model of `_force_remove_directory(path)` with `max_retries = 3`; also returns
how many `rmtree` deletion attempts were made. -/
def forceRemoveDirectory (rmOk : Nat → Bool) (renameOk : Bool) (ts : Nat)
    (path : List Char) : RemoveOutcome × Nat :=
  forceRemoveGo rmOk renameOk ts path 0 3

/-- The directory name `f"codebase_{codebase_id}"` under `base_db_dir`. -/
def dbDirName (cid : Nat) : List Char := "codebase_".toList ++ strOfNat cid

/-- Model of `delete_codebase(codebase_id)` viewed at the granularity of the
`base_db_dir` listing (client/collection caches are dropped first; the
directory is touched only if it exists).  Returns the new listing and the
reclamation outcome (`none` when the directory did not exist). -/
def deleteCodebase (rmOk : Nat → Bool) (renameOk : Bool) (ts : Nat) (cid : Nat)
    (dirs : List (List Char)) : List (List Char) × Option RemoveOutcome :=
  let name := dbDirName cid
  if name ∈ dirs then
    match forceRemoveDirectory rmOk renameOk ts name with
    | (.removed, _) => (dirs.filter (· ≠ name), some .removed)
    | (.renamed b, _) => (dirs.filter (· ≠ name) ++ [b], some (.renamed b))
    | (.raised p, _) => (dirs, some (.raised p))
    | (.exhausted, _) => (dirs, some .exhausted)
  else (dirs, none)

/-- Per-item parse of `list_codebases`: keep items starting with
`"codebase_"` and apply `int(item.split("_")[1])`, skipping items where
`int` raises `ValueError`. -/
def parseCodebaseDir (item : List Char) : Option Nat :=
  if "codebase_".toList.isPrefixOf item then pyIntDec? ((item.splitOn '_').getD 1 [])
  else none

/-- Model of `list_codebases()`: parse the `base_db_dir` listing and sort the ids. -/
def listCodebases (dirs : List (List Char)) : List Nat :=
  (dirs.filterMap parseCodebaseDir).mergeSort fun a b => decide (a ≤ b)

/-! ### Ingest pipelines (temp_processor.py and codebase_manager.py) -/

/-- The placeholder chunk `process_repository` substitutes when no chunks
were produced: `f"No processable source files found in repository {name}.
Repository contains {n} items but no supported code files."`. -/
def tempPlaceholder (name : List Char) (numItems : Nat) : List Char :=
  "No processable source files found in repository ".toList ++ name
    ++ ". Repository contains ".toList ++ strOfNat numItems
    ++ " items but no supported code files.".toList

/-- The chunk list built by `TempRepositoryProcessor.process_repository`
from the readable file contents (`read_file` yields `""` on failure and
falsy contents are skipped); when no chunks result, the placeholder is
substituted, so the result is never empty. -/
def processRepositoryChunks (fileContents : List (List Char)) (name : List Char)
    (numItems : Nat) : List (List Char) :=
  let chunks := fileContents.foldl
    (fun acc content => if content.isEmpty then acc else acc ++ chunk_code content) []
  if chunks.isEmpty then [tempPlaceholder name numItems] else chunks

/-- The placeholder `CodebaseManager._process_codebase` stores when source
files exist but produced no chunks. -/
def localPlaceholder : List Char :=
  "No processable source files found in this repository.".toList

/-- The documents `CodebaseManager._process_codebase` passes to
`add_documents`, from the contents of the discovered source files:
`none` models the early `return` taken when `get_source_files` found no
files at all — in that case `add_documents` is never called. -/
def processCodebaseChunks (files : List (List Char)) : Option (List (List Char)) :=
  if files.isEmpty then none
  else
    let all_chunks := files.foldl
      (fun acc content => if pyStrip content = [] then acc else acc ++ chunk_code content) []
    some (if all_chunks.isEmpty then [localPlaceholder] else all_chunks)

/-- A freshly constructed store: nothing persisted, nothing cached. -/
def emptyStore : MultiStore := { disk := fun _ => [], cached := [] }

/-- Concrete 31-line input for the chunking edge-case analysis. -/
def c9text : List Char := joinLines (List.replicate 31 ['x'])

/-- Concrete 100-line input for the chunk-coverage analysis. -/
def c7text : List Char := joinLines (List.replicate 100 ['x'])

/-! ## Helper lemmas -/

theorem hexCharVal_le (c : Char) : hexCharVal c ≤ 15 := by
  unfold hexCharVal
  simp only []
  split_ifs <;> omega

theorem pyIntHex_le (l : List Char) (h : l.length ≤ 2) : pyIntHex l ≤ 255 := by
  match l with
  | [] => simp [pyIntHex]
  | [a] =>
    have := hexCharVal_le a
    simp only [pyIntHex, List.foldl_cons, List.foldl_nil]
    omega
  | [a, b] =>
    have ha := hexCharVal_le a
    have hb := hexCharVal_le b
    simp only [pyIntHex, List.foldl_cons, List.foldl_nil]
    omega
  | _ :: _ :: _ :: _ => simp at h

theorem length_md5 (msg : List Nat) : (md5 msg).length = 16 := by
  simp [md5, wordLE4]

theorem length_flatMap_two {α β : Type} (l : List α) (f : α → List β)
    (hf : ∀ b, (f b).length = 2) : (l.flatMap f).length = 2 * l.length := by
  induction l with
  | nil => simp
  | cons a t ih => simp [List.flatMap_cons, ih, hf]; omega

theorem length_md5hex (msg : List Nat) : (md5hex msg).length = 32 := by
  rw [md5hex, length_flatMap_two _ (fun b => [hexDigit (b / 16), hexDigit (b % 16)])
    (fun _ => rfl), length_md5]

theorem length_hexPairs (h : List Char) : (hexPairs h).length = (h.length + 1) / 2 := by
  simp [hexPairs]

theorem get_embedding_eq (text : List Char) :
    get_embedding text = (hexPairs (md5hex (utf8Bytes text))).map
      (fun p => ((pyIntHex p : ℚ) - 127.5) / 127.5) := by
  unfold get_embedding
  have hl : ((hexPairs (md5hex (utf8Bytes text))).map
      (fun p => ((pyIntHex p : ℚ) - 127.5) / 127.5)).length = 16 := by
    rw [List.length_map, length_hexPairs, length_md5hex]
  simp only [hl]
  rw [if_neg (by omega), List.take_of_length_le (by omega)]

theorem length_get_embedding (text : List Char) : (get_embedding text).length = 16 := by
  rw [get_embedding_eq, List.length_map, length_hexPairs, length_md5hex]

theorem get_embedding_range (text : List Char) (v : ℚ) (hv : v ∈ get_embedding text) :
    -1 ≤ v ∧ v ≤ 1 := by
  rw [get_embedding_eq] at hv
  obtain ⟨p, hp, rfl⟩ := List.mem_map.1 hv
  obtain ⟨i, _, rfl⟩ := List.mem_map.1 hp
  have hlen : (((md5hex (utf8Bytes text)).drop i).take 2).length ≤ 2 :=
    List.length_take_le 2 _
  have hle : pyIntHex (((md5hex (utf8Bytes text)).drop i).take 2) ≤ 255 :=
    pyIntHex_le _ hlen
  set n := pyIntHex (((md5hex (utf8Bytes text)).drop i).take 2) with hn
  have h0 : (0 : ℚ) ≤ (n : ℚ) := by positivity
  have h255 : (n : ℚ) ≤ 255 := by exact_mod_cast hle
  constructor
  · rw [le_div_iff₀ (by norm_num)]
    linarith
  · rw [div_le_one (by norm_num)]
    linarith

theorem digitChar_inj : ∀ a < 10, ∀ b < 10, Nat.digitChar a = Nat.digitChar b → a = b := by
  decide

theorem map_digitChar_inj : ∀ d₁ d₂ : List Nat, (∀ x ∈ d₁, x < 10) → (∀ x ∈ d₂, x < 10) →
    d₁.map Nat.digitChar = d₂.map Nat.digitChar → d₁ = d₂ := by
  intro d₁
  induction d₁ with
  | nil => intro d₂ _ _ h; cases d₂ <;> simp_all
  | cons a t ih =>
    intro d₂ h₁ h₂ h
    cases d₂ with
    | nil => simp at h
    | cons b t₂ =>
      simp only [List.map_cons, List.cons.injEq] at h
      have hab : a = b := digitChar_inj a (h₁ a (by simp)) b (h₂ b (by simp)) h.1
      have := ih t₂ (fun x hx => h₁ x (by simp [hx])) (fun x hx => h₂ x (by simp [hx])) h.2
      simp [hab, this]

theorem natDigitsRev_eq_digits : ∀ fuel n, n ≤ fuel → natDigitsRev fuel n = Nat.digits 10 n := by
  intro fuel
  induction fuel with
  | zero =>
    intro n h
    interval_cases n
    simp [natDigitsRev]
  | succ f ih =>
    intro n h
    by_cases hn : n = 0
    · simp [natDigitsRev, hn]
    · have hlt : n / 10 < n := Nat.div_lt_self (Nat.pos_of_ne_zero hn) (by norm_num)
      simp only [natDigitsRev, if_neg hn]
      rw [ih (n / 10) (by omega),
        Nat.digits_def' (by norm_num : (1 : ℕ) < 10) (Nat.pos_of_ne_zero hn)]

theorem strOfNat_ne_zero {n : Nat} (hn : n ≠ 0) : strOfNat n ≠ ['0'] := by
  intro h
  rw [strOfNat, if_neg hn, natDigitsRev_eq_digits n n le_rfl] at h
  have h' : (Nat.digits 10 n).map Nat.digitChar = ['0'] := by
    have := congrArg List.reverse h
    simpa using this
  have hd : ∃ d, Nat.digits 10 n = [d] ∧ Nat.digitChar d = '0' := by
    rcases hx : Nat.digits 10 n with _ | ⟨d, t⟩
    · rw [hx] at h'; simp at h'
    · rw [hx] at h'
      rcases t with _ | ⟨e, t'⟩
      · exact ⟨d, rfl, by simpa using h'⟩
      · simp at h'
  obtain ⟨d, hd1, hd2⟩ := hd
  have hdlt : d < 10 := Nat.digits_lt_base (by norm_num) (by rw [hd1]; simp)
  have hd0 : d = 0 := digitChar_inj d hdlt 0 (by norm_num) (by simpa using hd2)
  have h0 := Nat.ofDigits_digits 10 n
  rw [hd1, hd0] at h0
  simp [Nat.ofDigits] at h0
  exact hn h0.symm

theorem strOfNat_inj {m n : Nat} (h : strOfNat m = strOfNat n) : m = n := by
  by_cases hm : m = 0 <;> by_cases hn : n = 0
  · omega
  · subst hm
    exact absurd (by simpa [strOfNat] using h.symm) (strOfNat_ne_zero hn)
  · subst hn
    exact absurd (by simpa [strOfNat] using h) (strOfNat_ne_zero hm)
  · rw [strOfNat, strOfNat, if_neg hm, if_neg hn, natDigitsRev_eq_digits m m le_rfl,
      natDigitsRev_eq_digits n n le_rfl] at h
    have h' := congrArg List.reverse h
    simp only [List.reverse_reverse] at h'
    have hd := map_digitChar_inj _ _
      (fun x hx => Nat.digits_lt_base (by norm_num) hx)
      (fun x hx => Nat.digits_lt_base (by norm_num) hx) h'
    have := Nat.ofDigits_digits 10 m
    rw [hd, Nat.ofDigits_digits] at this
    omega

theorem getDbPath_inj {base : List Char} {a b : Nat} (h : a ≠ b) :
    getDbPath base a ≠ getDbPath base b := by
  intro he
  unfold getDbPath at he
  rw [List.append_assoc, List.append_assoc, List.append_assoc, List.append_assoc] at he
  have := List.append_cancel_left he
  have := List.append_cancel_left this
  have := List.append_cancel_left this
  exact h (strOfNat_inj this)

/-- Claim C4: `get_embedding` returns exactly 16 rationals, each in
[-1, 1]; the vector is exactly the per-pair map `(v - 127.5) / 127.5` over
the 16 byte pairs of the 128-bit MD5 hash of the UTF-8 bytes (the
pad/truncate step is the identity at 16 values); identical text yields an
identical vector. -/
theorem c4_embedding_shape_range_determinism (text : List Char) :
    (get_embedding text).length = 16 ∧
    (∀ v ∈ get_embedding text, -1 ≤ v ∧ v ≤ 1) ∧
    get_embedding text = (hexPairs (md5hex (utf8Bytes text))).map
      (fun p => ((pyIntHex p : ℚ) - 127.5) / 127.5) ∧
    (∀ t₂, text = t₂ → get_embedding text = get_embedding t₂) := by
  refine ⟨length_get_embedding text, fun v hv => get_embedding_range text v hv,
    get_embedding_eq text, fun t₂ ht => by rw [ht]⟩

/-- Witness for C4 at a concrete input. -/
theorem c4_witness :
    (get_embedding ['a']).length = 16 ∧ get_embedding ['a'] = get_embedding ['a'] :=
  ⟨(c4_embedding_shape_range_determinism ['a']).1,
   (c4_embedding_shape_range_determinism ['a']).2.2.2 ['a'] rfl⟩

theorem ensureClient_disk (cid : Nat) (s : MultiStore) : (ensureClient cid s).disk = s.disk := by
  unfold ensureClient
  split <;> rfl

theorem ensureClient_mem_cached {A B : Nat} (h : B ≠ A) (s : MultiStore) :
    (B ∈ (ensureClient A s).cached) ↔ B ∈ s.cached := by
  unfold ensureClient
  split
  · exact Iff.rfl
  · simp [h]

theorem addDocuments_disk_other {base p : List Char} {A : Nat} (hp : p ≠ getDbPath base A)
    (dOk aOk : Bool) (docs : List (List Char)) (r : Bool) (s : MultiStore) :
    ((addDocuments base dOk aOk A docs r s).1).disk p = s.disk p := by
  unfold addDocuments
  by_cases hd : docs = []
  · simp [hd]
  · cases aOk <;> simp [hd, hp, ensureClient_disk]

theorem addDocuments_mem_cached {base : List Char} {A B : Nat} (h : B ≠ A)
    (dOk aOk : Bool) (docs : List (List Char)) (r : Bool) (s : MultiStore) :
    (B ∈ ((addDocuments base dOk aOk A docs r s).1).cached) ↔ B ∈ s.cached := by
  unfold addDocuments
  by_cases hd : docs = []
  · simp [hd]
  · cases aOk <;> simp [hd, ensureClient_mem_cached h]

theorem queryCodebase_subset {base : List Char} {cid : Nat} {q : List Char} {n : Nat}
    {s : MultiStore} {ds : List (List Char)} (hq : queryCodebase base cid q n s = .ok ds)
    {d : List Char} (hd : d ∈ ds) : d ∈ (s.disk (getDbPath base cid)).map Entry.doc := by
  unfold queryCodebase at hq
  split at hq
  · obtain rfl := Except.ok.inj hq
    obtain ⟨p, hp, rfl⟩ := List.mem_map.1 hd
    have hp' := List.take_subset n _ hp
    rw [List.mem_mergeSort] at hp'
    obtain ⟨e, he, rfl⟩ := List.mem_map.1 hp'
    exact List.mem_map.2 ⟨e, he, rfl⟩
  · simp at hq

theorem newEntries_meta (cid : Nat) (docs : List (List Char)) :
    ∀ e ∈ newEntries cid docs, e.meta_codebase_id = cid := by
  intro e he
  obtain ⟨p, _, rfl⟩ := List.mem_map.1 he
  rfl

theorem length_newEntries (cid : Nat) (docs : List (List Char)) :
    (newEntries cid docs).length = docs.length := by
  simp [newEntries, List.enum_length]

theorem addDocuments_replace_disk {base : List Char} {cid : Nat} {docs : List (List Char)}
    {s : MultiStore} (hd : docs ≠ [])
    (hinv : ∀ e ∈ s.disk (getDbPath base cid), e.meta_codebase_id = cid) :
    ((addDocuments base true true cid docs true s).1).disk (getDbPath base cid)
      = newEntries cid docs := by
  simp [addDocuments, hd, ensureClient_disk]
  exact hinv

theorem addDocuments_fail_disk {base : List Char} {cid : Nat} {docs : List (List Char)}
    {s : MultiStore} (hd : docs ≠ [])
    (hinv : ∀ e ∈ s.disk (getDbPath base cid), e.meta_codebase_id = cid) :
    ((addDocuments base true false cid docs true s).1).disk (getDbPath base cid) = [] := by
  simp [addDocuments, hd, ensureClient_disk]
  exact hinv

/-- Claim C1: tenant isolation.  Adding documents for tenant `A` — under
any delete/add success oracle and either `replace_existing` mode — leaves
tenant `B`'s persisted collection untouched, leaves any query against `B`
with exactly the answer it had before, and a successful query against `B`
only ever returns documents stored in `B`'s own collection. -/
theorem c1_tenant_isolation (base : List Char) (s : MultiStore) (A B : Nat)
    (docs : List (List Char)) (replace delOk aOk : Bool) (q : List Char) (n : Nat)
    (h : A ≠ B) :
    ((addDocuments base delOk aOk A docs replace s).1).disk (getDbPath base B)
        = s.disk (getDbPath base B) ∧
    queryCodebase base B q n (addDocuments base delOk aOk A docs replace s).1
        = queryCodebase base B q n s ∧
    (∀ ds d, queryCodebase base B q n (addDocuments base delOk aOk A docs replace s).1
        = .ok ds → d ∈ ds → d ∈ (s.disk (getDbPath base B)).map Entry.doc) := by
  have hp : getDbPath base B ≠ getDbPath base A := getDbPath_inj (Ne.symm h)
  have h1 := addDocuments_disk_other hp delOk aOk docs replace s
  have hc := @addDocuments_mem_cached base A B (Ne.symm h) delOk aOk docs replace s
  have h2 : queryCodebase base B q n (addDocuments base delOk aOk A docs replace s).1
      = queryCodebase base B q n s := by
    by_cases hB : B ∈ s.cached
    · rw [queryCodebase, queryCodebase, if_pos (hc.2 hB), if_pos hB, h1]
    · rw [queryCodebase, queryCodebase, if_neg (fun hx => hB (hc.1 hx)), if_neg hB]
  exact ⟨h1, h2, fun ds d hq hd => queryCodebase_subset (h2 ▸ hq) hd⟩

/-- Witness for C1 at concrete tenants 1 and 2 on a fresh store. -/
theorem c1_witness :
    ((addDocuments [] true true 1 [['x']] true emptyStore).1).disk (getDbPath [] 2)
        = emptyStore.disk (getDbPath [] 2) ∧
    queryCodebase [] 2 ['q'] 3 (addDocuments [] true true 1 [['x']] true emptyStore).1
        = queryCodebase [] 2 ['q'] 3 emptyStore :=
  ⟨(c1_tenant_isolation [] emptyStore 1 2 [['x']] true true true ['q'] 3 (by decide)).1,
   (c1_tenant_isolation [] emptyStore 1 2 [['x']] true true true ['q'] 3 (by decide)).2.1⟩

/-- Claim C2: replace idempotence.  From any state whose tenant collection
satisfies the metadata invariant maintained by `add_documents` (every
stored entry carries `codebase_id = cid`), two successive
`add_documents(docs, replace_existing=True)` calls leave the tenant with
exactly `len(docs)` documents — as does a single call. -/
theorem c2_replace_idempotence (base : List Char) (s : MultiStore) (cid : Nat)
    (docs : List (List Char)) (h1 : docs ≠ [])
    (hinv : ∀ e ∈ s.disk (getDbPath base cid), e.meta_codebase_id = cid) :
    (((addDocuments base true true cid docs true
        ((addDocuments base true true cid docs true s).1)).1).disk
          (getDbPath base cid)).length = docs.length ∧
    (((addDocuments base true true cid docs true s).1).disk
        (getDbPath base cid)).length = docs.length := by
  have hfirst := addDocuments_replace_disk h1 hinv
  have hsecond := @addDocuments_replace_disk base cid docs
    ((addDocuments base true true cid docs true s).1) h1
    (by rw [hfirst]; exact newEntries_meta cid docs)
  rw [hfirst, hsecond, length_newEntries]
  exact ⟨rfl, rfl⟩

/-- Witness for C2 at a concrete tenant on a fresh store. -/
theorem c2_witness :
    (((addDocuments [] true true 1 [['x']] true
        ((addDocuments [] true true 1 [['x']] true emptyStore).1)).1).disk
          (getDbPath [] 1)).length = 1 :=
  (c2_replace_idempotence [] emptyStore 1 [['x']] (by decide) (fun e he => by simp [emptyStore] at he)).1

/-- Claim C3: two-phase replace.  With `replace_existing=True` the delete
phase precedes the insert: when the insert fails after a successful
delete, the call surfaces the distinguishable write error and the tenant
collection is left empty (no old/new mixture); when the insert succeeds,
the tenant collection holds exactly the new batch (old documents all gone
before the insert landed). -/
theorem c3_replace_failure_leaves_empty (base : List Char) (s : MultiStore) (cid : Nat)
    (docs : List (List Char)) (h1 : docs ≠ [])
    (hinv : ∀ e ∈ s.disk (getDbPath base cid), e.meta_codebase_id = cid) :
    (addDocuments base true false cid docs true s).2 = .error .storeWriteError ∧
    ((addDocuments base true false cid docs true s).1).disk (getDbPath base cid) = [] ∧
    (addDocuments base true true cid docs true s).2 = .ok () ∧
    ((addDocuments base true true cid docs true s).1).disk (getDbPath base cid)
      = newEntries cid docs := by
  refine ⟨?_, addDocuments_fail_disk h1 hinv, ?_, addDocuments_replace_disk h1 hinv⟩
  · simp [addDocuments, h1]
  · simp [addDocuments, h1]

/-- Witness for C3 at a concrete tenant on a fresh store. -/
theorem c3_witness :
    (addDocuments [] true false 1 [['x']] true emptyStore).2 = .error .storeWriteError ∧
    ((addDocuments [] true false 1 [['x']] true emptyStore).1).disk (getDbPath [] 1) = [] :=
  ⟨(c3_replace_failure_leaves_empty [] emptyStore 1 [['x']] (by decide)
      (fun e he => by simp [emptyStore] at he)).1,
   (c3_replace_failure_leaves_empty [] emptyStore 1 [['x']] (by decide)
      (fun e he => by simp [emptyStore] at he)).2.1⟩

theorem forceRemoveGo_unfold3 (rmOk : Nat → Bool) (renameOk : Bool) (ts : Nat)
    (path : List Char) :
    forceRemoveGo rmOk renameOk ts path 0 3 =
      (if rmOk 0 then (.removed, 1)
       else if rmOk 1 then (.removed, 2)
       else forceRemoveGo rmOk renameOk ts path 2 2) := rfl

theorem forceRemoveGo_unfold2 (rmOk : Nat → Bool) (renameOk : Bool) (ts : Nat)
    (path : List Char) :
    forceRemoveGo rmOk renameOk ts path 2 2 =
      (if rmOk 2 then (.removed, 3)
       else if rmOk 3 then (.removed, 4)
       else forceRemoveGo rmOk renameOk ts path 4 1) := rfl

theorem forceRemoveGo_unfold1 (rmOk : Nat → Bool) (renameOk : Bool) (ts : Nat)
    (path : List Char) :
    forceRemoveGo rmOk renameOk ts path 4 1 =
      (if rmOk 4 then (.removed, 5)
       else if renameOk then (.renamed (backupName path ts), 5)
       else (.raised path, 5)) := rfl

/-- Claim C5: bounded reclamation with rename fallback.  The reclaimer
makes at most 5 deletion (`shutil.rmtree`) attempts; when all 5 fail it
makes exactly 5, then renames the directory to the timestamped backup name
and returns without raising when the rename succeeds; an error — which
names the path — escapes only when the rename itself also failed (after
all deletions failed). -/
theorem c5_reclaimer_bounded_fallback (rmOk : Nat → Bool) (renameOk : Bool) (ts : Nat)
    (path : List Char) :
    (forceRemoveDirectory rmOk renameOk ts path).2 ≤ 5 ∧
    ((∀ i < 5, rmOk i = false) →
      (forceRemoveDirectory rmOk renameOk ts path).2 = 5 ∧
      (renameOk = true →
        (forceRemoveDirectory rmOk renameOk ts path).1 = .renamed (backupName path ts)) ∧
      (renameOk = false → (forceRemoveDirectory rmOk renameOk ts path).1 = .raised path)) ∧
    (∀ p, (forceRemoveDirectory rmOk renameOk ts path).1 = .raised p →
      p = path ∧ renameOk = false ∧ ∀ i < 5, rmOk i = false) := by
  refine ⟨?_, ?_, ?_⟩
  · simp only [forceRemoveDirectory, forceRemoveGo_unfold3, forceRemoveGo_unfold2,
      forceRemoveGo_unfold1]
    split_ifs <;> simp
  · intro hall
    have h0 := hall 0 (by norm_num)
    have h1 := hall 1 (by norm_num)
    have h2 := hall 2 (by norm_num)
    have h3 := hall 3 (by norm_num)
    have h4 := hall 4 (by norm_num)
    simp only [forceRemoveDirectory, forceRemoveGo_unfold3, forceRemoveGo_unfold2,
      forceRemoveGo_unfold1, h0, h1, h2, h3, h4]
    cases renameOk <;> simp
  · simp only [forceRemoveDirectory, forceRemoveGo_unfold3, forceRemoveGo_unfold2,
      forceRemoveGo_unfold1]
    split_ifs with h0 h1 h2 h3 h4 hr <;> intro p hp <;> simp at hp
    obtain ⟨rfl⟩ := hp
    rw [Bool.not_eq_true] at h0 h1 h2 h3 h4 hr
    refine ⟨rfl, hr, ?_⟩
    intro i hi
    interval_cases i <;> assumption

/-- Witness for C5: every deletion attempt failing, rename succeeding. -/
theorem c5_witness :
    (forceRemoveDirectory (fun _ => false) true 7 ['p']).2 = 5 ∧
    (forceRemoveDirectory (fun _ => false) true 7 ['p']).1
      = .renamed (backupName ['p'] 7) := by
  have h := (c5_reclaimer_bounded_fallback (fun _ => false) true 7 ['p']).2.1
    (fun i _ => rfl)
  exact ⟨h.1, h.2.1 rfl⟩

theorem not_mem_listCodebases {cid : Nat} {dirs : List (List Char)}
    (h : ∀ d ∈ dirs, parseCodebaseDir d ≠ some cid) : cid ∉ listCodebases dirs := by
  intro hmem
  rw [listCodebases, List.mem_mergeSort] at hmem
  obtain ⟨d, hd, hp⟩ := List.mem_filterMap.1 hmem
  exact h d hd hp

theorem backupName_ne (path : List Char) (ts : Nat) : backupName path ts ≠ path := by
  intro h
  have hlen := congrArg List.length h
  have h8 : ("_backup_".toList).length = 8 := rfl
  simp [backupName, List.length_append, h8] at hlen

theorem forceRemove_renamed_eq {rmOk : Nat → Bool} {renameOk : Bool} {ts : Nat}
    {path b : List Char}
    (h : (forceRemoveDirectory rmOk renameOk ts path).1 = .renamed b) :
    b = backupName path ts := by
  simp only [forceRemoveDirectory, forceRemoveGo_unfold3, forceRemoveGo_unfold2,
    forceRemoveGo_unfold1] at h
  split_ifs at h
  all_goals simp_all

/-- Counterexample to claim C6 as stated: when every deletion attempt
fails and the rename fallback succeeds, `delete_codebase` returns without
raising (the footprint is relocated to `codebase_1_backup_7`), yet
`list_codebases` still contains tenant id 1, because the backup directory
name still starts with `codebase_` and `int(item.split("_")[1])` parses it
back to 1. -/
theorem c6_counterexample :
    (deleteCodebase (fun _ => false) true 7 1 [dbDirName 1]).2
      = some (.renamed (backupName (dbDirName 1) 7)) ∧
    (deleteCodebase (fun _ => false) true 7 1 [dbDirName 1]).1
      = [backupName (dbDirName 1) 7] ∧
    1 ∈ listCodebases (deleteCodebase (fun _ => false) true 7 1 [dbDirName 1]).1 := by
  refine ⟨by decide, by decide, ?_⟩
  unfold listCodebases
  rw [List.mem_mergeSort]
  decide

/-- Claim C6 amended: after `delete_codebase` returns, the tenant's
directory is gone or relocated in full — removed outright, renamed whole
to the timestamped backup, or (only when raising) untouched — and when the
directory was actually removed (or never existed), and no *other* listing
entry parses to the same id, `list_codebases` no longer contains the
tenant id.  When the rename fallback fired, the backup name itself still
parses to the tenant id, so the tenant remains listed. -/
theorem c6_destroy_listing (rmOk : Nat → Bool) (renameOk : Bool) (ts cid : Nat)
    (dirs : List (List Char))
    (hothers : ∀ d ∈ dirs, d ≠ dbDirName cid → parseCodebaseDir d ≠ some cid) :
    ((deleteCodebase rmOk renameOk ts cid dirs).2 = some .removed →
      dbDirName cid ∉ (deleteCodebase rmOk renameOk ts cid dirs).1 ∧
      cid ∉ listCodebases (deleteCodebase rmOk renameOk ts cid dirs).1) ∧
    ((deleteCodebase rmOk renameOk ts cid dirs).2 = none →
      cid ∉ listCodebases (deleteCodebase rmOk renameOk ts cid dirs).1) ∧
    (∀ b, (deleteCodebase rmOk renameOk ts cid dirs).2 = some (.renamed b) →
      b = backupName (dbDirName cid) ts ∧
      dbDirName cid ∉ (deleteCodebase rmOk renameOk ts cid dirs).1 ∧
      b ∈ (deleteCodebase rmOk renameOk ts cid dirs).1) ∧
    (∀ p, (deleteCodebase rmOk renameOk ts cid dirs).2 = some (.raised p) →
      (deleteCodebase rmOk renameOk ts cid dirs).1 = dirs) := by
  have hfilter_not_mem : dbDirName cid ∉ dirs.filter (· ≠ dbDirName cid) := by
    intro hx
    have := (List.mem_filter.1 hx).2
    simp at this
  have hfilter_list : cid ∉ listCodebases (dirs.filter (· ≠ dbDirName cid)) := by
    refine not_mem_listCodebases (fun d hd => ?_)
    have h1 := (List.mem_filter.1 hd).1
    have h2 := (List.mem_filter.1 hd).2
    simp at h2
    exact hothers d h1 h2
  unfold deleteCodebase
  by_cases hmem : dbDirName cid ∈ dirs
  · rcases hout : forceRemoveDirectory rmOk renameOk ts (dbDirName cid) with ⟨out, calls⟩
    cases out with
    | removed =>
      simp only [if_pos hmem, hout]
      exact ⟨fun _ => ⟨hfilter_not_mem, hfilter_list⟩, by simp, by simp, by simp⟩
    | renamed b =>
      simp only [if_pos hmem, hout]
      refine ⟨by simp, by simp, ?_, by simp⟩
      intro b' hb'
      obtain rfl : b = b' := by simpa using hb'
      have hbeq : b = backupName (dbDirName cid) ts :=
        forceRemove_renamed_eq (by rw [hout])
      refine ⟨hbeq, ?_, by simp⟩
      intro hx
      rcases List.mem_append.1 hx with hx | hx
      · exact hfilter_not_mem hx
      · have : dbDirName cid = b := by simpa using hx
        exact backupName_ne (dbDirName cid) ts (hbeq ▸ this.symm)
    | raised p =>
      simp only [if_pos hmem, hout]
      exact ⟨by simp, by simp, by simp, by simp⟩
    | exhausted =>
      simp only [if_pos hmem, hout]
      exact ⟨by simp, by simp, by simp, by simp⟩
  · simp only [if_neg hmem]
    refine ⟨by simp, fun _ => ?_, by simp, by simp⟩
    exact not_mem_listCodebases (fun d hd => hothers d hd (fun he => hmem (he ▸ hd)))

/-- Witness for C6 (amended) at a concrete clean state where deletion
succeeds on the first attempt. -/
theorem c6_witness :
    1 ∉ listCodebases (deleteCodebase (fun _ => true) true 0 1 [dbDirName 1]).1 :=
  ((c6_destroy_listing (fun _ => true) true 0 1 [dbDirName 1] (by decide)).1 (by decide)).2

theorem drop_of_take {α : Type} (l : List α) (m n : Nat) :
    (l.take n).drop m = (l.drop m).take (n - m) := by
  by_cases h : m ≤ n
  · rw [List.take_drop, Nat.add_sub_cancel' h]
  · have h0 : n - m = 0 := by omega
    rw [h0, List.take_zero, List.drop_eq_nil_of_le]
    exact le_trans (List.length_take_le _ _) (by omega)

theorem chunkEmit_100 (lines : List (List Char)) (h : lines.length = 100) :
    chunkEmit 40 30 lines =
      [joinLines (lines.take 40), joinLines ((lines.drop 30).take 40),
       joinLines ((lines.drop 60).take 40), joinLines ((lines.drop 90).take 40)].filterMap
        (fun c => if pyStrip c = [] then none else some c) := by
  unfold chunkEmit
  rw [h]
  have hcs : chunkStarts 100 30 = [0, 30, 60, 90] := rfl
  rw [hcs]
  simp only [List.filterMap_cons, List.filterMap_nil, List.drop_zero]

theorem splitLines_ne_nil (text : List Char) : splitLines text ≠ [] := by
  unfold splitLines List.splitOn
  exact List.splitOnP_ne_nil _ _

/-- Claim C7: the splitter's stepping algorithm at `window = 40`,
`overlap = 10` on any 100-line input.  The start index advances by 30 per
step and stops at the line count, so exactly the four windows at lines 0,
30, 60, 90 are visited; blank windows are dropped while the index still
advances; each window holds at most 40 lines (the first three exactly 40,
the last 10); the last 30 lines of each window are the first 30 lines of
the next, so consecutive windows overlap in exactly 10 lines — the last
window being exactly the 10-line overlap tail of its predecessor; and when
no window is blank the emitted chunks are exactly the four windows in
order (ordinals contiguous from 0). -/
theorem c7_chunk_stepping_coverage (text : List Char)
    (h : (splitLines text).length = 100) :
    chunk_code text =
      [joinLines ((splitLines text).take 40), joinLines (((splitLines text).drop 30).take 40),
       joinLines (((splitLines text).drop 60).take 40),
       joinLines (((splitLines text).drop 90).take 40)].filterMap
        (fun c => if pyStrip c = [] then none else some c) ∧
    ((splitLines text).take 40).length = 40 ∧
    (((splitLines text).drop 30).take 40).length = 40 ∧
    (((splitLines text).drop 60).take 40).length = 40 ∧
    (((splitLines text).drop 90).take 40).length = 10 ∧
    ((splitLines text).take 40).drop 30 = ((splitLines text).drop 30).take 10 ∧
    (((splitLines text).drop 30).take 40).drop 30 = ((splitLines text).drop 60).take 10 ∧
    (((splitLines text).drop 60).take 40).drop 30 = ((splitLines text).drop 90).take 40 ∧
    (pyStrip (joinLines ((splitLines text).take 40)) ≠ [] →
     pyStrip (joinLines (((splitLines text).drop 30).take 40)) ≠ [] →
     pyStrip (joinLines (((splitLines text).drop 60).take 40)) ≠ [] →
     pyStrip (joinLines (((splitLines text).drop 90).take 40)) ≠ [] →
      chunk_code text =
        [joinLines ((splitLines text).take 40),
         joinLines (((splitLines text).drop 30).take 40),
         joinLines (((splitLines text).drop 60).take 40),
         joinLines (((splitLines text).drop 90).take 40)]) := by
  have hmain : chunk_code text =
      [joinLines ((splitLines text).take 40), joinLines (((splitLines text).drop 30).take 40),
       joinLines (((splitLines text).drop 60).take 40),
       joinLines (((splitLines text).drop 90).take 40)].filterMap
        (fun c => if pyStrip c = [] then none else some c) := chunkEmit_100 (splitLines text) h
  refine ⟨hmain, ?_, ?_, ?_, ?_, ?_, ?_, ?_, ?_⟩
  · rw [List.length_take, h]; decide
  · rw [List.length_take, List.length_drop, h]; decide
  · rw [List.length_take, List.length_drop, h]; decide
  · rw [List.length_take, List.length_drop, h]; decide
  · rw [drop_of_take]
  · rw [drop_of_take, List.drop_drop]
  · rw [drop_of_take, List.drop_drop]
    rw [List.take_of_length_le (by rw [List.length_drop, h]),
      List.take_of_length_le (by rw [List.length_drop, h]; omega)]
  · intro h0 h1 h2 h3
    rw [hmain]
    simp [h0, h1, h2, h3]

/-- Witness for C7 at a concrete 100-line input. -/
theorem c7_witness :
    ((splitLines c7text).take 40).drop 30 = ((splitLines c7text).drop 30).take 10 ∧
    (((splitLines c7text).drop 90).take 40).length = 10 :=
  ⟨(c7_chunk_stepping_coverage c7text (by decide)).2.2.2.2.2.1,
   (c7_chunk_stepping_coverage c7text (by decide)).2.2.2.2.1⟩

/-- Claim C8 evaluated on the code: with `overlap > window` (40/41) the
splitter silently returns zero chunks — no configuration error is raised —
and with `overlap = window` (40/40) the call dies with the bare
`range()` `ValueError` during splitting rather than a pre-I/O
configuration error.  The shipped `chunk_code` has no guard at all. -/
theorem c8_no_degenerate_guard :
    chunkCodeGen 40 41 "a\nb".toList = .ok [] ∧
    chunkCodeGen 40 40 "a\nb".toList = .error .rangeStepZero ∧
    chunkCodeGen 40 10 "a\nb".toList = .ok (chunk_code "a\nb".toList) := by
  exact ⟨rfl, rfl, rfl⟩

/-- Counterexample to claim C9 as stated: a 31-line text (fewer than the
40-line window) on which `chunk_code` emits *two* chunks — the whole text
and a second chunk of line 30 — because the step is `40 - 10 = 30`. -/
theorem c9_counterexample :
    chunk_code c9text = [c9text, ['x']] ∧ (chunk_code c9text).length = 2 := by
  exact ⟨by decide, by decide⟩

/-- Claim C9 amended: for every text of at most `window - overlap = 30`
lines (rather than `window = 40`), `chunk_code` yields exactly one chunk —
the whole text — when the text is non-empty after stripping, and zero
chunks when it strips to empty.  (Texts of 31–39 lines can emit a second
tail chunk, as the counterexample shows.) -/
theorem c9_short_input (text : List Char) (h : (splitLines text).length ≤ 30) :
    (pyStrip text ≠ [] → chunk_code text = [text]) ∧
    (pyStrip text = [] → chunk_code text = []) := by
  have hne : splitLines text ≠ [] := splitLines_ne_nil text
  have hlen1 : 1 ≤ (splitLines text).length := List.length_pos.2 hne
  have hsteps : pyRangeLen (splitLines text).length 30 = 1 := by
    unfold pyRangeLen; omega
  have htake : (splitLines text).take 40 = splitLines text :=
    List.take_of_length_le (by omega)
  have hjoin : joinLines (splitLines text) = text := by
    unfold joinLines splitLines
    exact List.intercalate_splitOn text '\n'
  have hform : chunk_code text = if pyStrip text = [] then [] else [text] := by
    unfold chunk_code chunkEmit chunkStarts
    rw [show CHUNK_SIZE - CHUNK_OVERLAP = 30 from rfl, show CHUNK_SIZE = 40 from rfl, hsteps]
    by_cases hb : pyStrip text = [] <;>
      simp [List.range', List.drop_zero, htake, hjoin, hb]
  constructor
  · intro hb; rw [hform, if_neg hb]
  · intro hb; rw [hform, if_pos hb]

/-- Witness for C9 (amended) at concrete one-line inputs. -/
theorem c9_witness :
    chunk_code ['x'] = [['x']] ∧ chunk_code [' '] = [] :=
  ⟨(c9_short_input ['x'] (by decide)).1 (by decide),
   (c9_short_input [' '] (by decide)).2 (by decide)⟩

/-- Claim C10 evaluated on the code: in the ephemeral/temporary mode a
repository with zero processable files yields exactly the single
placeholder chunk (never zero chunks), but in the persistent/local mode
`_process_codebase` returns early when `get_source_files` finds no files —
`add_documents` is never called and the tenant's store stays empty, with
no placeholder stored. -/
theorem c10_empty_repo_placeholder (name : List Char) (numItems : Nat) :
    processRepositoryChunks [] name numItems = [tempPlaceholder name numItems] ∧
    (processRepositoryChunks [] name numItems).length = 1 ∧
    processCodebaseChunks [] = none := by
  exact ⟨rfl, rfl, rfl⟩

